import Mathlib

/-!
Verification of the gap-buffer core of `simple_text_editor.py` (class
`GapBuffer`).  Python strings are modelled as Lean `String`s; each element of
`start_buffer` / `end_buffer` is a Python string (a one-character string for a
real character, the empty string `""` for the padding elements that
`_expand_gap` appends).  Python integers are modelled as `Int` (they may go
negative, e.g. `gap_length`).  `''.join(...)` is `String.join`.
-/

set_option linter.unusedVariables false

/-- State of the Python class `GapBuffer`: fields `buffer_size`,
`start_buffer`, `gap_index`, `gap_length`, `end_buffer`. -/
structure GapBuffer where
  buffer_size : Int
  start_buffer : List String
  gap_index : Int
  gap_length : Int
  end_buffer : List String
deriving DecidableEq, Repr

namespace GapBuffer

/-- `GapBuffer.__init__(initial_text, buffer_size)`: `start_buffer =
list(initial_text)`, `gap_index = len(initial_text)`,
`gap_length = buffer_size - len(initial_text)`, `end_buffer = []`.
(`list(s)` splits a Python string into one-character strings.) -/
def init (initial_text : String) (buffer_size : Int) : GapBuffer :=
  { buffer_size := buffer_size
    start_buffer := initial_text.toList.map (fun c => String.singleton c)
    gap_index := (initial_text.length : Int)
    gap_length := buffer_size - (initial_text.length : Int)
    end_buffer := [] }

/-- `get_text`: `''.join(self.start_buffer + self.end_buffer)`. -/
def get_text (b : GapBuffer) : String :=
  String.join (b.start_buffer ++ b.end_buffer)

/-- `_expand_gap`: doubles `buffer_size`, appends
`[''] * (new_buffer_size - buffer_size)` to `start_buffer` and adds the same
amount to `gap_length`.  (Python list repetition with a non-positive count
yields `[]`, hence the `Int.toNat`.) -/
def expand_gap (b : GapBuffer) : GapBuffer :=
  let new_buffer_size := b.buffer_size * 2
  { b with
    start_buffer :=
      b.start_buffer ++ List.replicate (new_buffer_size - b.buffer_size).toNat ""
    gap_length := b.gap_length + (new_buffer_size - b.buffer_size)
    buffer_size := new_buffer_size }

/-- `insert(char)`: if `gap_length == 0` first run `_expand_gap`, then append
`char` to `start_buffer`, increment `gap_index`, decrement `gap_length`. -/
def insert (b : GapBuffer) (char : String) : GapBuffer :=
  let b := if b.gap_length = 0 then b.expand_gap else b
  { b with
    start_buffer := b.start_buffer ++ [char]
    gap_index := b.gap_index + 1
    gap_length := b.gap_length - 1 }

/-- `delete()` (backspace): if `gap_index > 0`, decrement `gap_index`,
increment `gap_length`, pop and return the last element of `start_buffer`;
otherwise return `None` and leave the state alone.  (In every reachable state
`gap_index > 0` implies `start_buffer ≠ []`, so the Python `list.pop()` cannot
raise and `getLast?` is `some`.) -/
def delete (b : GapBuffer) : GapBuffer × Option String :=
  if 0 < b.gap_index then
    ({ b with
        gap_index := b.gap_index - 1
        gap_length := b.gap_length + 1
        start_buffer := b.start_buffer.dropLast },
      b.start_buffer.getLast?)
  else
    (b, none)

/-- `delete_forward()` (delete key): if `end_buffer` is non-empty, increment
`gap_length`, pop and return its first element; otherwise return `None`. -/
def delete_forward (b : GapBuffer) : GapBuffer × Option String :=
  match b.end_buffer with
  | char :: rest =>
      ({ b with gap_length := b.gap_length + 1, end_buffer := rest }, some char)
  | [] => (b, none)

/-- `move_cursor_left()`: if `gap_index > 0`, decrement `gap_index`, increment
`gap_length` and move the last element of `start_buffer` to the front of
`end_buffer`.  (The `none` branch corresponds to `list.pop()` on an empty
list, which cannot happen in a reachable state with `gap_index > 0`.) -/
def move_cursor_left (b : GapBuffer) : GapBuffer :=
  if 0 < b.gap_index then
    match b.start_buffer.getLast? with
    | some char =>
        { b with
          gap_index := b.gap_index - 1
          gap_length := b.gap_length + 1
          start_buffer := b.start_buffer.dropLast
          end_buffer := char :: b.end_buffer }
    | none => b
  else b

/-- `move_cursor_right()`: if `end_buffer` is non-empty, decrement
`gap_length`, increment `gap_index` and move the first element of
`end_buffer` to the end of `start_buffer`. -/
def move_cursor_right (b : GapBuffer) : GapBuffer :=
  match b.end_buffer with
  | char :: rest =>
      { b with
        gap_length := b.gap_length - 1
        gap_index := b.gap_index + 1
        end_buffer := rest
        start_buffer := b.start_buffer ++ [char] }
  | [] => b

/-- The `while self.gap_index > position: self.move_cursor_left()` loop of
`move_cursor_to`, with explicit fuel bounding the number of iterations (the
Python loop is unbounded; its behaviour is the limit over all fuels). -/
def moveLeftLoop : Nat → GapBuffer → Int → GapBuffer
  | 0, b, _ => b
  | fuel + 1, b, position =>
      if position < b.gap_index then moveLeftLoop fuel b.move_cursor_left position
      else b

/-- The `while self.gap_index < position: self.move_cursor_right()` loop of
`move_cursor_to`, with explicit fuel. -/
def moveRightLoop : Nat → GapBuffer → Int → GapBuffer
  | 0, b, _ => b
  | fuel + 1, b, position =>
      if b.gap_index < position then moveRightLoop fuel b.move_cursor_right position
      else b

/-- `move_cursor_to(position)`: move left while `gap_index > position`, or
right while `gap_index < position`.  `fuel` bounds the loop iterations; the
Python `while` loops are unbounded (and can in fact fail to terminate, see
below). -/
def move_cursor_to (b : GapBuffer) (fuel : Nat) (position : Int) : GapBuffer :=
  let current_pos := b.gap_index
  if position < current_pos then moveLeftLoop fuel b position
  else if current_pos < position then moveRightLoop fuel b position
  else b

/-- `get_cursor_position()`: returns `gap_index`. -/
def get_cursor_position (b : GapBuffer) : Int :=
  b.gap_index

end GapBuffer

/-- A single buffer operation as invoked by the editor (`SimpleTextEditor`):
`insert` is only ever called with a one-character string
(`len(event.char) == 1`), the other operations have no arguments beyond the
target position. -/
inductive Step : GapBuffer → GapBuffer → Prop where
  | insert (b : GapBuffer) (s : String) (h : s.length = 1) : Step b (b.insert s)
  | delete (b : GapBuffer) : Step b (b.delete).1
  | delete_forward (b : GapBuffer) : Step b (b.delete_forward).1
  | move_cursor_left (b : GapBuffer) : Step b b.move_cursor_left
  | move_cursor_right (b : GapBuffer) : Step b b.move_cursor_right
  | move_cursor_to (b : GapBuffer) (fuel : Nat) (position : Int) :
      Step b (b.move_cursor_to fuel position)

/-- States reachable from some `GapBuffer(initial_text, buffer_size)` by the
editor's operations. -/
inductive Reachable : GapBuffer → Prop where
  | init (initial_text : String) (buffer_size : Int) :
      Reachable (GapBuffer.init initial_text buffer_size)
  | step {b b' : GapBuffer} : Reachable b → Step b b' → Reachable b'

namespace GapBuffer

/-- Number of non-empty elements (real characters) in a buffer segment. -/
def realCount (l : List String) : Nat :=
  l.countP (fun s => decide (0 < s.length))

/-- Number of empty-string elements (padding left behind by `_expand_gap`). -/
def padCount (l : List String) : Nat :=
  l.countP (fun s => decide (s.length = 0))

theorem realCount_nil : realCount [] = 0 := rfl

theorem padCount_nil : padCount [] = 0 := rfl

theorem realCount_append (l₁ l₂ : List String) :
    realCount (l₁ ++ l₂) = realCount l₁ + realCount l₂ :=
  List.countP_append ..

theorem padCount_append (l₁ l₂ : List String) :
    padCount (l₁ ++ l₂) = padCount l₁ + padCount l₂ :=
  List.countP_append ..

theorem realCount_add_padCount_single (s : String) :
    realCount [s] + padCount [s] = 1 := by
  rcases Nat.eq_zero_or_pos s.length with h | h
  · have h' : ¬ 0 < s.length := by omega
    simp [realCount, padCount, List.countP_cons, h, h']
  · have h' : s.length ≠ 0 := by omega
    simp [realCount, padCount, List.countP_cons, h, h']

theorem realCount_single_le (s : String) : realCount [s] ≤ 1 :=
  Nat.le_trans (List.countP_le_length _) (by simp)

theorem realCount_replicate_empty (n : Nat) :
    realCount (List.replicate n "") = 0 := by
  induction n with
  | zero => rfl
  | succ n ih => simp [List.replicate_succ, realCount, List.countP_cons]

theorem realCount_singleton_char (s : String) (h : s.length = 1) :
    realCount [s] = 1 := by
  simp [realCount, List.countP_cons, h]

theorem realCount_cons (s : String) (l : List String) :
    realCount (s :: l) = realCount [s] + realCount l := by
  simpa using realCount_append [s] l

theorem padCount_cons (s : String) (l : List String) :
    padCount (s :: l) = padCount [s] + padCount l := by
  simpa using padCount_append [s] l

theorem realCount_map_singleton (cs : List Char) :
    realCount (cs.map (fun c => String.singleton c)) = cs.length := by
  induction cs with
  | nil => rfl
  | cons c cs ih =>
      have h1 : (String.singleton c).length = 1 := by simp [String.singleton_eq]
      rw [List.map_cons, realCount_cons, realCount_singleton_char _ h1, ih, List.length_cons]
      omega

/-- Inductive invariant of reachable buffer states:
the cursor is non-negative, the number of real characters in `start_buffer`
covers the cursor plus every padding element sitting in `end_buffer`, and each
buffer element is at most one character long. -/
structure Inv (b : GapBuffer) : Prop where
  nonneg : 0 ≤ b.gap_index
  balance : b.gap_index + (padCount b.end_buffer : Int) ≤ (realCount b.start_buffer : Int)
  oneStart : ∀ s ∈ b.start_buffer, s.length ≤ 1
  oneEnd : ∀ s ∈ b.end_buffer, s.length ≤ 1

theorem inv_init (initial_text : String) (buffer_size : Int) :
    Inv (init initial_text buffer_size) := by
  refine ⟨?_, ?_, ?_, ?_⟩
  · exact Int.ofNat_nonneg _
  · dsimp only [init]
    rw [realCount_map_singleton]
    have hlen : initial_text.toList.length = initial_text.length := rfl
    have hpad : padCount ([] : List String) = 0 := rfl
    omega
  · intro s hs
    simp only [init, List.mem_map] at hs
    obtain ⟨c, _, rfl⟩ := hs
    simp [String.singleton_eq]
  · intro s hs
    simp [init] at hs

theorem inv_expand_gap {b : GapBuffer} (h : Inv b) : Inv b.expand_gap := by
  obtain ⟨h0, h1, h2, h3⟩ := h
  refine ⟨h0, ?_, ?_, h3⟩
  · simpa [expand_gap, realCount_append, realCount_replicate_empty] using h1
  · intro s hs
    simp only [expand_gap, List.mem_append] at hs
    rcases hs with hs | hs
    · exact h2 s hs
    · simp [List.eq_of_mem_replicate hs]

theorem inv_insert {b : GapBuffer} (s : String) (hs : s.length = 1) (h : Inv b) :
    Inv (b.insert s) := by
  have key : ∀ b' : GapBuffer, Inv b' →
      Inv { b' with
              start_buffer := b'.start_buffer ++ [s]
              gap_index := b'.gap_index + 1
              gap_length := b'.gap_length - 1 } := by
    intro b' ⟨h0, h1, h2, h3⟩
    refine ⟨?_, ?_, ?_, ?_⟩
    · dsimp only
      omega
    · dsimp only
      rw [realCount_append, realCount_singleton_char s hs]
      push_cast
      omega
    · intro t ht
      dsimp only at ht
      simp only [List.mem_append, List.mem_singleton] at ht
      rcases ht with ht | rfl
      · exact h2 t ht
      · omega
    · intro t ht
      dsimp only at ht
      exact h3 t ht
  unfold insert
  by_cases hgl : b.gap_length = 0 <;> simp only [hgl, if_true, if_false, ite_true, ite_false]
  · exact key _ (inv_expand_gap h)
  · exact key _ h

theorem start_buffer_ne_nil {b : GapBuffer} (h : Inv b) (hgi : 0 < b.gap_index) :
    b.start_buffer ≠ [] := by
  intro hnil
  have := h.balance
  rw [hnil] at this
  simp [realCount_nil] at this
  omega

theorem inv_delete {b : GapBuffer} (h : Inv b) : Inv (b.delete).1 := by
  unfold delete
  by_cases hgi : 0 < b.gap_index
  · simp only [hgi, if_true, ite_true]
    rcases List.eq_nil_or_concat b.start_buffer with hnil | ⟨L, x, hLx⟩
    · exact absurd hnil (start_buffer_ne_nil h hgi)
    · rw [List.concat_eq_append] at hLx
      obtain ⟨h0, h1, h2, h3⟩ := h
      rw [hLx] at h1 h2 ⊢
      rw [List.dropLast_concat]
      refine ⟨?_, ?_, ?_, ?_⟩
      · dsimp only
        omega
      · dsimp only
        rw [realCount_append] at h1
        have := realCount_single_le x
        push_cast at h1 ⊢
        omega
      · intro t ht
        dsimp only at ht
        exact h2 t (List.mem_append_left _ ht)
      · intro t ht
        dsimp only at ht
        exact h3 t ht
  · simpa only [hgi, if_false, ite_false] using h

theorem inv_delete_forward {b : GapBuffer} (h : Inv b) : Inv (b.delete_forward).1 := by
  unfold delete_forward
  obtain ⟨h0, h1, h2, h3⟩ := h
  cases hE : b.end_buffer with
  | nil => exact ⟨h0, h1, h2, h3⟩
  | cons x rest =>
      rw [hE] at h1 h3
      have hx : padCount (x :: rest) = padCount [x] + padCount rest := by
        simpa using padCount_append [x] rest
      refine ⟨h0, ?_, h2, ?_⟩
      · dsimp only
        rw [hx] at h1
        push_cast at h1 ⊢
        omega
      · intro t ht
        dsimp only at ht
        exact h3 t (List.mem_cons_of_mem _ ht)

theorem inv_move_cursor_left {b : GapBuffer} (h : Inv b) : Inv b.move_cursor_left := by
  unfold move_cursor_left
  by_cases hgi : 0 < b.gap_index
  · simp only [hgi, if_true, ite_true]
    rcases List.eq_nil_or_concat b.start_buffer with hnil | ⟨L, x, hLx⟩
    · exact absurd hnil (start_buffer_ne_nil h hgi)
    · rw [List.concat_eq_append] at hLx
      obtain ⟨h0, h1, h2, h3⟩ := h
      rw [hLx] at h1 h2 ⊢
      rw [List.getLast?_concat]
      dsimp only
      rw [List.dropLast_concat]
      have hpad : padCount (x :: b.end_buffer) = padCount [x] + padCount b.end_buffer := by
        simpa using padCount_append [x] b.end_buffer
      have hone := realCount_add_padCount_single x
      rw [realCount_append] at h1
      refine ⟨?_, ?_, ?_, ?_⟩
      · dsimp only
        omega
      · dsimp only
        rw [hpad]
        push_cast at h1 ⊢
        omega
      · intro t ht
        dsimp only at ht
        exact h2 t (List.mem_append_left _ ht)
      · intro t ht
        dsimp only at ht
        rcases List.mem_cons.mp ht with rfl | ht
        · exact h2 t (List.mem_append_right _ (List.mem_singleton_self t))
        · exact h3 t ht
  · simpa only [hgi, if_false, ite_false] using h

theorem inv_move_cursor_right {b : GapBuffer} (h : Inv b) : Inv b.move_cursor_right := by
  unfold move_cursor_right
  obtain ⟨h0, h1, h2, h3⟩ := h
  cases hE : b.end_buffer with
  | nil => exact ⟨h0, h1, h2, h3⟩
  | cons x rest =>
      rw [hE] at h1 h3
      have hpad : padCount (x :: rest) = padCount [x] + padCount rest := by
        simpa using padCount_append [x] rest
      have hone := realCount_add_padCount_single x
      rw [hpad] at h1
      refine ⟨?_, ?_, ?_, ?_⟩
      · dsimp only
        omega
      · dsimp only
        rw [realCount_append]
        push_cast at h1 ⊢
        omega
      · intro t ht
        dsimp only at ht
        rcases List.mem_append.mp ht with ht | ht
        · exact h2 t ht
        · rw [List.mem_singleton.mp ht]
          exact h3 x (List.mem_cons_self x rest)
      · intro t ht
        dsimp only at ht
        exact h3 t (List.mem_cons_of_mem _ ht)

theorem inv_moveLeftLoop {b : GapBuffer} (h : Inv b) (fuel : Nat) (position : Int) :
    Inv (moveLeftLoop fuel b position) := by
  induction fuel generalizing b with
  | zero => exact h
  | succ fuel ih =>
      unfold moveLeftLoop
      by_cases hc : position < b.gap_index
      · simp only [hc, if_true, ite_true]
        exact ih (inv_move_cursor_left h)
      · simpa only [hc, if_false, ite_false] using h

theorem inv_moveRightLoop {b : GapBuffer} (h : Inv b) (fuel : Nat) (position : Int) :
    Inv (moveRightLoop fuel b position) := by
  induction fuel generalizing b with
  | zero => exact h
  | succ fuel ih =>
      unfold moveRightLoop
      by_cases hc : b.gap_index < position
      · simp only [hc, if_true, ite_true]
        exact ih (inv_move_cursor_right h)
      · simpa only [hc, if_false, ite_false] using h

theorem inv_move_cursor_to {b : GapBuffer} (h : Inv b) (fuel : Nat) (position : Int) :
    Inv (b.move_cursor_to fuel position) := by
  unfold move_cursor_to
  by_cases hl : position < b.gap_index
  · simpa only [hl, if_true, ite_true] using inv_moveLeftLoop h fuel position
  · by_cases hr : b.gap_index < position
    · simpa only [hl, hr, if_true, if_false, ite_true, ite_false] using
        inv_moveRightLoop h fuel position
    · simpa only [hl, hr, if_false, ite_false] using h

end GapBuffer

/-- Every operation of the editor preserves the invariant. -/
theorem step_preserves_inv {b b' : GapBuffer} (s : Step b b') (h : b.Inv) : b'.Inv := by
  cases s with
  | insert t ht => exact GapBuffer.inv_insert t ht h
  | delete => exact GapBuffer.inv_delete h
  | delete_forward => exact GapBuffer.inv_delete_forward h
  | move_cursor_left => exact GapBuffer.inv_move_cursor_left h
  | move_cursor_right => exact GapBuffer.inv_move_cursor_right h
  | move_cursor_to fuel position => exact GapBuffer.inv_move_cursor_to h fuel position

/-- Every reachable state satisfies the invariant. -/
theorem reachable_inv {b : GapBuffer} (h : Reachable b) : b.Inv := by
  induction h with
  | init initial_text buffer_size => exact GapBuffer.inv_init initial_text buffer_size
  | step _ s ih => exact step_preserves_inv s ih

namespace GapBuffer

theorem flatten_replicate_nil (n : Nat) :
    (List.replicate n ([] : List Char)).flatten = [] := by
  induction n with
  | zero => rfl
  | succ n ih => simp [List.replicate_succ, ih]

theorem get_text_data (b : GapBuffer) :
    b.get_text.data = ((b.start_buffer ++ b.end_buffer).map String.data).flatten := by
  simp [get_text]

theorem sum_lengths_eq_realCount (l : List String) (h : ∀ s ∈ l, s.length ≤ 1) :
    (l.map String.length).sum = realCount l := by
  induction l with
  | nil => rfl
  | cons s t ih =>
      have hs := h s (List.mem_cons_self s t)
      have ht := ih fun x hx => h x (List.mem_cons_of_mem _ hx)
      rw [List.map_cons, List.sum_cons, realCount_cons, ht]
      rcases Nat.eq_zero_or_pos s.length with h0 | h1
      · have h0' : ¬ 0 < s.length := by omega
        have : realCount [s] = 0 := by simp [realCount, List.countP_cons, h0']
        omega
      · have : realCount [s] = 1 := realCount_singleton_char s (by omega)
        omega

theorem get_text_length_of_inv {b : GapBuffer} (h : Inv b) :
    b.get_text.length = realCount b.start_buffer + realCount b.end_buffer := by
  have hdata : b.get_text.length = b.get_text.data.length := rfl
  rw [hdata, get_text_data, List.length_flatten, List.map_map]
  have hmap : ((b.start_buffer ++ b.end_buffer).map (List.length ∘ String.data))
      = (b.start_buffer ++ b.end_buffer).map String.length := rfl
  rw [hmap, sum_lengths_eq_realCount, realCount_append]
  intro s hs
  rcases List.mem_append.mp hs with hs | hs
  · exact h.oneStart s hs
  · exact h.oneEnd s hs

theorem expand_gap_get_text (b : GapBuffer) : b.expand_gap.get_text = b.get_text := by
  refine String.ext ?_
  simp [expand_gap, get_text, List.map_append, List.flatten_append, List.map_replicate,
    flatten_replicate_nil]

theorem move_cursor_left_get_text (b : GapBuffer) :
    b.move_cursor_left.get_text = b.get_text := by
  unfold move_cursor_left
  by_cases hgi : 0 < b.gap_index
  · simp only [hgi, if_true, ite_true]
    rcases List.eq_nil_or_concat b.start_buffer with hnil | ⟨L, x, hLx⟩
    · rw [hnil]
      rfl
    · rw [List.concat_eq_append] at hLx
      rw [hLx, List.getLast?_concat]
      dsimp only
      rw [List.dropLast_concat]
      refine String.ext ?_
      simp [get_text, hLx, List.map_append, List.flatten_append]
  · simp only [hgi, if_false, ite_false]

theorem move_cursor_right_get_text (b : GapBuffer) :
    b.move_cursor_right.get_text = b.get_text := by
  unfold move_cursor_right
  cases hE : b.end_buffer with
  | nil => rfl
  | cons x rest =>
      refine String.ext ?_
      simp [get_text, hE, List.map_append, List.flatten_append]

theorem moveLeftLoop_get_text (fuel : Nat) (position : Int) :
    ∀ b : GapBuffer, (moveLeftLoop fuel b position).get_text = b.get_text := by
  induction fuel with
  | zero => intro b; rfl
  | succ fuel ih =>
      intro b
      unfold moveLeftLoop
      by_cases hc : position < b.gap_index
      · simp only [hc, if_true, ite_true]
        rw [ih, move_cursor_left_get_text]
      · simp only [hc, if_false, ite_false]

theorem moveRightLoop_get_text (fuel : Nat) (position : Int) :
    ∀ b : GapBuffer, (moveRightLoop fuel b position).get_text = b.get_text := by
  induction fuel with
  | zero => intro b; rfl
  | succ fuel ih =>
      intro b
      unfold moveRightLoop
      by_cases hc : b.gap_index < position
      · simp only [hc, if_true, ite_true]
        rw [ih, move_cursor_right_get_text]
      · simp only [hc, if_false, ite_false]

theorem move_cursor_to_get_text (b : GapBuffer) (fuel : Nat) (position : Int) :
    (b.move_cursor_to fuel position).get_text = b.get_text := by
  unfold move_cursor_to
  by_cases hl : position < b.gap_index
  · simpa only [hl, if_true, ite_true] using moveLeftLoop_get_text fuel position b
  · by_cases hr : b.gap_index < position
    · simpa only [hl, hr, if_true, if_false, ite_true, ite_false] using
        moveRightLoop_get_text fuel position b
    · simp only [hl, hr, if_false, ite_false]

theorem insert_end_buffer (b : GapBuffer) (s : String) :
    (b.insert s).end_buffer = b.end_buffer := by
  unfold insert
  by_cases h : b.gap_length = 0 <;> simp [h, expand_gap]

theorem insert_get_text_of_end_nil {b : GapBuffer} (hE : b.end_buffer = []) (s : String) :
    (b.insert s).get_text = b.get_text ++ s := by
  unfold insert
  by_cases h : b.gap_length = 0 <;> simp only [h, if_true, if_false, ite_true, ite_false]
  · refine String.ext ?_
    simp [expand_gap, get_text, hE, List.map_append, List.flatten_append,
      List.map_replicate, flatten_replicate_nil]
  · refine String.ext ?_
    simp [get_text, hE, List.map_append, List.flatten_append]

theorem foldl_insert_get_text :
    ∀ (cs : List Char) (b : GapBuffer), b.end_buffer = [] →
      (cs.foldl (fun acc c => acc.insert (String.singleton c)) b).get_text
        = b.get_text ++ String.mk cs
  | [], b, hE => by
      refine String.ext ?_
      simp
  | c :: cs, b, hE => by
      rw [List.foldl_cons,
        foldl_insert_get_text cs _ (by rw [insert_end_buffer]; exact hE),
        insert_get_text_of_end_nil hE]
      refine String.ext ?_
      simp [String.singleton_eq]

/-- The right-move loop is stuck on any state whose `move_cursor_right` is a
no-op (empty `end_buffer`): no amount of fuel makes progress, mirroring the
non-terminating Python `while` loop. -/
theorem moveRightLoop_fixed {b : GapBuffer} (h : b.move_cursor_right = b) :
    ∀ (fuel : Nat) (position : Int), moveRightLoop fuel b position = b := by
  intro fuel
  induction fuel with
  | zero => intro position; rfl
  | succ fuel ih =>
      intro position
      unfold moveRightLoop
      by_cases hc : b.gap_index < position
      · simp only [hc, if_true, ite_true]
        rw [h, ih]
      · simp only [hc, if_false, ite_false]

end GapBuffer

-- sanity checks, spec §8 scenarios
example :
    ((((GapBuffer.init "" 1000).insert "a").insert "b").insert "c").get_text = "abc" := by
  decide

example :
    ((((GapBuffer.init "" 1000).insert "a").insert "b").insert "c").get_cursor_position
      = 3 := by
  decide

example :
    ((((((GapBuffer.init "" 1000).insert "a").insert "b").insert "c").move_cursor_to 10 1).insert
      "X").get_text = "aXbc" := by
  decide

example : (((GapBuffer.init "hi" 1000).move_cursor_to 10 0).delete_forward).2
    = some "h" := by decide

example : ((((GapBuffer.init "hi" 1000).move_cursor_to 10 0).delete_forward).1).get_text
    = "i" := by decide

/-! ## Concrete trace exhibiting the `_expand_gap` corruption

`GapBuffer("", 1)`, `insert('a')`, `insert('b')` (this second insert triggers
`_expand_gap`, which appends a padding `''` to `start_buffer` without moving
`gap_index`), then two `delete()` calls. -/

def ed0 : GapBuffer := GapBuffer.init "" 1

def ed1 : GapBuffer := ed0.insert "a"

def ed2 : GapBuffer := ed1.insert "b"

def ed3 : GapBuffer := (ed2.delete).1

def ed4 : GapBuffer := (ed3.delete).1

theorem reachable_ed0 : Reachable ed0 := Reachable.init "" 1

theorem reachable_ed1 : Reachable ed1 :=
  Reachable.step reachable_ed0 (Step.insert ed0 "a" rfl)

theorem reachable_ed2 : Reachable ed2 :=
  Reachable.step reachable_ed1 (Step.insert ed1 "b" rfl)

theorem reachable_ed3 : Reachable ed3 :=
  Reachable.step reachable_ed2 (Step.delete ed2)

theorem reachable_ed4 : Reachable ed4 :=
  Reachable.step reachable_ed3 (Step.delete ed3)

-- the concrete values of the corrupted states
example : ed2 = ⟨2, ["a", "", "b"], 2, 0, []⟩ := by decide
example : ed3 = ⟨2, ["a", ""], 1, 1, []⟩ := by decide
example : ed4 = ⟨2, ["a"], 0, 2, []⟩ := by decide

/-- C1: the claim that `gap_index` equals the length of `start_buffer` in every
reachable state, including immediately after `_expand_gap`, is FALSE in the
code: `_expand_gap` appends padding `''` elements to `start_buffer` without
touching `gap_index`.  In the reachable state `ed2` (reached via an insert that
triggered `_expand_gap`) the cursor is 2 while `start_buffer` has 3 elements,
and applying `_expand_gap` directly to the reachable state `ed1` leaves
`gap_index = 1` with `start_buffer` of length 2. -/
theorem claim_C1_code_divergence :
    Reachable ed2 ∧ ed2.gap_index = 2 ∧ ed2.start_buffer.length = 3 ∧
      Reachable ed1 ∧ ed1.expand_gap.gap_index = 1 ∧
      ed1.expand_gap.start_buffer.length = 2 :=
  ⟨reachable_ed2, by decide, by decide, reachable_ed1, by decide, by decide⟩

/-- C2: the claim that `move_cursor_to(target)` always reaches an in-range
target is FALSE in the code: the reachable state `ed4` has text "a" (so
`target = 1` is within `[0, totalTextLength]`) but `gap_index = 0` with an
empty `end_buffer`, so `move_cursor_right` is a no-op and the Python
`while self.gap_index < position` loop never terminates.  In the fuel model:
no amount of fuel moves the cursor off 0. -/
theorem claim_C2_code_divergence :
    Reachable ed4 ∧ ed4.get_text.length = 1 ∧
      ∀ fuel : Nat, (ed4.move_cursor_to fuel 1).get_cursor_position = 0 := by
  refine ⟨reachable_ed4, by decide, ?_⟩
  intro fuel
  have hmr : ed4.move_cursor_right = ed4 := by decide
  have h0 : ed4.gap_index = 0 := by decide
  simp only [GapBuffer.move_cursor_to, h0]
  norm_num
  rw [GapBuffer.moveRightLoop_fixed hmr]
  exact h0

/-- C3 counterexample: `GapBuffer("x" * 1000, 10)` sets
`gap_length = 10 - 1000 = -990`, not `max(0, 10 - 1000) = 0`; the claimed
non-negativity of the reserve capacity fails already at construction. -/
def xs1000 : String := String.mk (List.replicate 1000 'x')

theorem claim_C3_counterexample :
    (GapBuffer.init xs1000 10).gap_length = -990 ∧
      (GapBuffer.init xs1000 10).gap_length ≠ max 0 (10 - (xs1000.length : Int)) ∧
      (GapBuffer.init xs1000 10).gap_length < 0 := by
  have hlenN : xs1000.length = 1000 := by
    unfold xs1000
    simp only [String.mk_length, List.length_replicate]
  have hlen : (xs1000.length : Int) = 1000 := by
    rw [hlenN]
    norm_num
  have hgl : (GapBuffer.init xs1000 10).gap_length = 10 - (xs1000.length : Int) := rfl
  refine ⟨?_, ?_, ?_⟩
  · rw [hgl, hlen]
    norm_num
  · rw [hgl, hlen]
    decide
  · rw [hgl, hlen]
    norm_num

/-- C3 amended: the constructor sets `gap_length` (the reserve capacity) to
`buffer_size - len(initial_text)` with no clamping at zero, so it is negative
whenever the capacity hint is smaller than the initial text. -/
theorem claim_C3_amended_init_gap_length (initial_text : String) (buffer_size : Int) :
    (GapBuffer.init initial_text buffer_size).gap_length
      = buffer_size - (initial_text.length : Int) := rfl

theorem claim_C3_witness :
    (GapBuffer.init "ab" 1).gap_length = 1 - (("ab".length : Nat) : Int) :=
  claim_C3_amended_init_gap_length "ab" 1

/-- C4: the claim that a `delete` returning a removed character (not `None`)
always shrinks the text by one is FALSE in the code: in the reachable state
`ed3` (text "a", produced after `_expand_gap` padding), `delete()` pops the
padding element, returning the empty string `''` (which is not `None`) while
the text length stays 1. -/
theorem claim_C4_code_divergence :
    Reachable ed3 ∧ ed3.get_text = "a" ∧
      (ed3.delete).2 = some "" ∧ (ed3.delete).2 ≠ none ∧
      ((ed3.delete).1).get_text.length = ed3.get_text.length :=
  ⟨reachable_ed3, by decide, by decide, by decide, by decide⟩

/-- C5: the claim that `insert(char)` at cursor `p` yields
`text[0:p] + char + text[p:]` is FALSE in the code: in the reachable state
`ed4` the text is "a" and the cursor is 0, yet `insert('X')` produces "aX"
(the claim predicts "Xa"), because the append lands after the `_expand_gap`
padding rather than at the cursor. -/
theorem claim_C5_code_divergence :
    Reachable ed4 ∧ ed4.get_text = "a" ∧ ed4.get_cursor_position = 0 ∧
      (ed4.insert "X").get_text = "aX" ∧
      (ed4.insert "X").get_cursor_position = 1 ∧
      (ed4.insert "X").get_text
        ≠ ed4.get_text.take 0 ++ "X" ++ ed4.get_text.drop 0 :=
  ⟨reachable_ed4, by decide, by decide, by decide, by decide, by decide⟩

/-- C6: in every state reachable from the constructor by the editor
operations, the cursor position is between 0 and the length of the text. -/
theorem claim_C6_cursor_bound (b : GapBuffer) (hb : Reachable b) :
    0 ≤ b.get_cursor_position ∧ b.get_cursor_position ≤ (b.get_text.length : Int) := by
  have hinv := reachable_inv hb
  refine ⟨hinv.nonneg, ?_⟩
  have hlen := GapBuffer.get_text_length_of_inv hinv
  have hbal := hinv.balance
  have hcur : b.get_cursor_position = b.gap_index := rfl
  rw [hcur, hlen]
  push_cast
  omega

theorem claim_C6_witness :
    0 ≤ (GapBuffer.init "hi" 5).get_cursor_position ∧
      (GapBuffer.init "hi" 5).get_cursor_position
        ≤ ((GapBuffer.init "hi" 5).get_text.length : Int) :=
  claim_C6_cursor_bound _ (Reachable.init "hi" 5)

/-- C7: starting from an empty buffer, any sequence of single-character
inserts (with any capacity hint, so growth may trigger) yields exactly the
concatenation of the inserted characters, in order. -/
theorem claim_C7_round_trip (buffer_size : Int) (cs : List Char) :
    (cs.foldl (fun b c => b.insert (String.singleton c))
        (GapBuffer.init "" buffer_size)).get_text = String.mk cs := by
  rw [GapBuffer.foldl_insert_get_text cs _ rfl]
  refine String.ext ?_
  simp [GapBuffer.init, GapBuffer.get_text]

theorem claim_C7_witness :
    ((['a', 'b', 'c'] : List Char).foldl (fun b c => b.insert (String.singleton c))
        (GapBuffer.init "" 1)).get_text = String.mk ['a', 'b', 'c'] :=
  claim_C7_round_trip 1 ['a', 'b', 'c']

/-- C8: in every reachable state, `_expand_gap` changes neither the text nor
the cursor position (the `''` padding it appends joins to nothing). -/
theorem claim_C8_expand_preserves (b : GapBuffer) (hb : Reachable b) :
    b.expand_gap.get_text = b.get_text ∧
      b.expand_gap.get_cursor_position = b.get_cursor_position :=
  ⟨GapBuffer.expand_gap_get_text b, rfl⟩

theorem claim_C8_witness :
    (GapBuffer.init "ab" 4).expand_gap.get_text = (GapBuffer.init "ab" 4).get_text ∧
      (GapBuffer.init "ab" 4).expand_gap.get_cursor_position
        = (GapBuffer.init "ab" 4).get_cursor_position :=
  claim_C8_expand_preserves _ (Reachable.init "ab" 4)

/-- C9: in every reachable state, `delete` returns `None` exactly when the
cursor is 0 and `delete_forward` returns `None` exactly when `end_buffer` is
empty, and in each `None` case the whole buffer state is unchanged. -/
theorem delete_eq_of_pos {b : GapBuffer} (hgi : 0 < b.gap_index) :
    b.delete = ({ b with
        gap_index := b.gap_index - 1
        gap_length := b.gap_length + 1
        start_buffer := b.start_buffer.dropLast }, b.start_buffer.getLast?) := by
  unfold GapBuffer.delete
  simp only [hgi, if_true, ite_true]

theorem delete_eq_of_nonpos {b : GapBuffer} (hgi : ¬ 0 < b.gap_index) :
    b.delete = (b, none) := by
  unfold GapBuffer.delete
  simp only [hgi, if_false, ite_false]

theorem delete_forward_none_iff (b : GapBuffer) :
    (b.delete_forward).2 = none ↔ b.end_buffer = [] := by
  unfold GapBuffer.delete_forward
  cases hE : b.end_buffer with
  | nil => simp
  | cons x rest => simp

theorem delete_forward_none_noop (b : GapBuffer) :
    (b.delete_forward).2 = none → (b.delete_forward).1 = b := by
  unfold GapBuffer.delete_forward
  cases hE : b.end_buffer with
  | nil =>
      intro _
      rfl
  | cons x rest =>
      intro hnone
      simp at hnone

theorem claim_C9_boundary_noops (b : GapBuffer) (hb : Reachable b) :
    ((b.delete).2 = none ↔ b.get_cursor_position = 0) ∧
      ((b.delete).2 = none → (b.delete).1 = b) ∧
      ((b.delete_forward).2 = none ↔ b.end_buffer = []) ∧
      ((b.delete_forward).2 = none → (b.delete_forward).1 = b) := by
  have hinv := reachable_inv hb
  have h0 := hinv.nonneg
  by_cases hgi : 0 < b.gap_index
  · have hne := GapBuffer.start_buffer_ne_nil hinv hgi
    have hsome : (b.delete).2 ≠ none := by
      rw [delete_eq_of_pos hgi]
      exact fun hnone => hne (List.getLast?_eq_none_iff.mp hnone)
    refine ⟨?_, ?_, delete_forward_none_iff b,
      delete_forward_none_noop b⟩
    · refine Iff.intro (fun h => absurd h hsome) (fun hcur => ?_)
      exfalso
      have hz : b.gap_index = 0 := hcur
      omega
    · intro h
      exact absurd h hsome
  · have hz : b.gap_index = 0 := by omega
    have hdel := delete_eq_of_nonpos hgi
    refine ⟨?_, ?_, delete_forward_none_iff b,
      delete_forward_none_noop b⟩
    · rw [hdel]
      exact Iff.intro (fun _ => hz) (fun _ => rfl)
    · rw [hdel]
      intro _
      rfl

theorem claim_C9_witness :
    (((GapBuffer.init "" 7).delete).2 = none
        ↔ (GapBuffer.init "" 7).get_cursor_position = 0) ∧
      (((GapBuffer.init "" 7).delete).2 = none → ((GapBuffer.init "" 7).delete).1
        = GapBuffer.init "" 7) ∧
      (((GapBuffer.init "" 7).delete_forward).2 = none
        ↔ (GapBuffer.init "" 7).end_buffer = []) ∧
      (((GapBuffer.init "" 7).delete_forward).2 = none
        → ((GapBuffer.init "" 7).delete_forward).1 = GapBuffer.init "" 7) :=
  claim_C9_boundary_noops _ (Reachable.init "" 7)

/-- C10: in every reachable state, a single `move_cursor_left`,
`move_cursor_right` or `move_cursor_to` call (any fuel, any target) leaves the
text unchanged. -/
theorem claim_C10_moves_preserve_text (b : GapBuffer) (hb : Reachable b) :
    b.move_cursor_left.get_text = b.get_text ∧
      b.move_cursor_right.get_text = b.get_text ∧
      ∀ (fuel : Nat) (position : Int),
        (b.move_cursor_to fuel position).get_text = b.get_text :=
  ⟨GapBuffer.move_cursor_left_get_text b, GapBuffer.move_cursor_right_get_text b,
    fun fuel position => GapBuffer.move_cursor_to_get_text b fuel position⟩

theorem claim_C10_witness :
    (GapBuffer.init "xy" 3).move_cursor_left.get_text = (GapBuffer.init "xy" 3).get_text :=
  (claim_C10_moves_preserve_text _ (Reachable.init "xy" 3)).1
